import Mathlib

/-!
# Verification of the check/chain engine and secrets lifecycle

A shallow embedding, in Lean 4, of the core of a TypeScript lab CLI:

* `src/lib/chains.ts` — check filtering (`filterChecks`), chain execution
  (`runChain`), multi-chain orchestration (`runChains`);
* the report aggregation (`createChainReport`) and the core types
  (`CheckStatus`, `CheckResult`, `Check`, `CheckReport`, `ChainReport`,
  `RunContext`) from `src/lib/rotation-strategies.ts`;
* `src/lib/secrets.ts` — the `SecretsManager.load` parser for the
  ephemeral secrets file;
* `src/lib/exec.ts` — the `exec` / `execOutput` wrappers;
* `src/lib/vaults-config.ts` — active-vault resolution.

Conventions of the embedding: JavaScript strings are Lean `String`s (for
line-level parsing, their `List Char` data); `process.env` and the file
system are explicit parameters (an association list respectively a lookup
function); asynchronous functions that may throw become functions into
`Except String _` or return the error alongside the state; wall-clock
measurements (timestamps, durations) are not modelled — a measured
duration is embedded as `0`.
-/

/-! ## Core types (`src/lib/types.ts`, bundled in `rotation-strategies.ts`) -/

/-- `CheckStatus`: `"pass" | "fail" | "warn" | "skip"`. -/
inductive CheckStatus where
  | pass
  | fail
  | warn
  | skip
deriving DecidableEq, Repr

/-- `CheckResult`: status plus optional message / details / duration.
The opaque `data?: unknown` payload is not modelled; durations are `Nat`
(they never influence control flow). -/
structure CheckResult where
  status : CheckStatus
  message : Option String := none
  details : Option String := none
  duration : Option Nat := none
deriving DecidableEq, Repr

/-- `Check`: id, title, optional tags and an async `run(ctx)` that may
throw.  A throw with message `m` is embedded as `Except.error m`. -/
structure Check (Ctx : Type) where
  id : String
  title : String
  tags : Option (List String) := none
  run : Ctx → Except String CheckResult

/-- `CheckReport`: a result paired with the originating check's identity.
The wall-clock `timestamp` field is not modelled. -/
structure CheckReport where
  id : String
  title : String
  tags : Option (List String) := none
  result : CheckResult
deriving DecidableEq, Repr

/-- `ChainReport` from `types.ts`. -/
structure ChainReport where
  name : String
  total : Nat
  passed : Nat
  failed : Nat
  warned : Nat
  skipped : Nat
  duration : Nat
  checks : List CheckReport
  summary : String
deriving DecidableEq, Repr

/-- `Config` from `types.ts` (the open `[key: string]: unknown` bag is
not modelled; no claim depends on it). -/
structure Config where
  envFile : String := ""
  secretsConfig : String := ""
  secretsEnv : String := ""
  vault : String := ""
  proxyEndpoint : String := ""
  tailscaleMagicIP : String := ""

/-- `RunContext` from `types.ts`. -/
structure RunContext where
  config : Config
  dryRun : Bool
  verbose : Bool

/-! ## Check filtering (`src/lib/chains.ts`, `filterChecks`) -/

/-- The filter options of `filterChecks` (`onlyTags? / from? / to?`).
`from` is a Lean keyword, so the two range ids are named `fromId`/`toId`. -/
structure FilterOptions where
  onlyTags : Option (List String) := none
  fromId : Option String := none
  toId : Option String := none

/-- JavaScript `Array.prototype.findIndex`: index of the first element
satisfying `p`, `-1` if none. -/
def jsFindIndex {α : Type} (p : α → Bool) : List α → Int
  | [] => -1
  | x :: xs =>
    if p x then 0
    else
      match jsFindIndex p xs with
      | -1 => -1
      | r => r + 1

/-- JavaScript `Array.prototype.slice(a, b)` for `0 ≤ a` and `0 ≤ b`
(the only way `filterChecks` calls it): elements at indices
`a, …, b-1`, clamped to the array. -/
def jsSlice {α : Type} (l : List α) (a b : Nat) : List α :=
  (l.drop a).take (b - a)

/-- The tag-filter stage of `filterChecks`:
`filtered.filter((c) => c.tags?.some((tag) => options.onlyTags!.includes(tag)))`,
applied only when `onlyTags` is present and non-empty.  An absent `tags`
field makes `c.tags?.some(...)` `undefined`, hence falsy. -/
def tagFilter {Ctx : Type} (checks : List (Check Ctx)) (onlyTags : Option (List String)) :
    List (Check Ctx) :=
  match onlyTags with
  | some tags =>
    if tags.length > 0 then
      checks.filter (fun c => (c.tags.getD []).any (fun tag => tags.contains tag))
    else checks
  | none => checks

/-- The `fromIdx` of the range filter (`options.from ? findIndex : 0`):
`findIndex` of the `from` id when the id is truthy — present AND
non-empty, by JavaScript string truthiness — else `0`. -/
def rangeFrom {Ctx : Type} (filtered : List (Check Ctx)) (fromId : Option String) : Int :=
  match fromId with
  | some f => if f.isEmpty then 0 else jsFindIndex (fun c => c.id == f) filtered
  | none => 0

/-- The `toIdx` of the range filter
(`options.to ? findIndex : length - 1`): `findIndex` of the `to` id
when the id is truthy, else `length - 1`. -/
def rangeTo {Ctx : Type} (filtered : List (Check Ctx)) (toId : Option String) : Int :=
  match toId with
  | some t =>
    if t.isEmpty then (filtered.length : Int) - 1
    else jsFindIndex (fun c => c.id == t) filtered
  | none => (filtered.length : Int) - 1

/-- The range-filter stage of `filterChecks`: slice inclusively from
`fromIdx` to `toIdx` when `0 ≤ fromIdx ≤ toIdx`
(`filtered.slice(fromIdx, toIdx + 1)`), else leave the list as is. -/
def rangeFilter {Ctx : Type} (filtered : List (Check Ctx))
    (fromId toId : Option String) : List (Check Ctx) :=
  if 0 ≤ rangeFrom filtered fromId ∧ 0 ≤ rangeTo filtered toId ∧
      rangeFrom filtered fromId ≤ rangeTo filtered toId then
    jsSlice filtered (rangeFrom filtered fromId).toNat ((rangeTo filtered toId).toNat + 1)
  else filtered

/-- `filterChecks` = tag filter, then range filter on the tag-filtered
list. -/
def filterChecks {Ctx : Type} (checks : List (Check Ctx)) (options : FilterOptions) :
    List (Check Ctx) :=
  rangeFilter (tagFilter checks options.onlyTags) options.fromId options.toId

/-! ## Chain execution (`src/lib/chains.ts`, `runChain` / `runChains`) -/

/-- `ChainOptions` from `chains.ts`. -/
structure ChainOptions where
  name : String
  checks : List (Check RunContext)
  onlyTags : Option (List String) := none
  fromId : Option String := none
  toId : Option String := none
  dryRun : Option Bool := none
  verbose : Option Bool := none
  json : Option Bool := none

/-- The body of one Listr2 task in `runChain`: run the check; on success
record its result (with the measured duration, embedded as `0`); on an
uncaught exception record a synthesized `fail` report with message
`"Exception"` and the exception text as details.  The re-`throw` after
recording is swallowed by Listr2 (`exitOnError: false`), so it does not
affect the report list. -/
def runCheck (ctx : RunContext) (check : Check RunContext) : CheckReport :=
  match check.run ctx with
  | .ok result =>
    { id := check.id, title := check.title, tags := check.tags,
      result := { result with duration := some 0 } }
  | .error msg =>
    { id := check.id, title := check.title, tags := check.tags,
      result := { status := .fail, message := some "Exception",
                  details := some msg, duration := some 0 } }

/-- `runChain`: filter the checks, then execute each in order
(`concurrent: false`), accumulating one report per executed check;
`exitOnError: false` means a task failure never stops later tasks. -/
def runChain (options : ChainOptions) (ctx : RunContext) : List CheckReport :=
  (filterChecks options.checks
    { onlyTags := options.onlyTags, fromId := options.fromId, toId := options.toId }).map
    (runCheck ctx)

/-- `runChains`: run chains in declared order; after each chain, if its
reports contain a `fail` and the context is not in dry-run mode, `break`
(returning the reports accumulated so far, the failing chain's
included). -/
def runChains (chains : List ChainOptions) (ctx : RunContext) :
    List (List CheckReport) :=
  match chains with
  | [] => []
  | chain :: rest =>
    let reports := runChain chain ctx
    if reports.any (fun r => r.result.status == .fail) && !ctx.dryRun then
      [reports]
    else
      reports :: runChains rest ctx

/-! ## Report aggregation (`src/lib/summary.ts`, bundled in
`rotation-strategies.ts`) -/

/-- `createChainReport`: count reports by status, sum durations
(`c.result.duration || 0`), and derive the one-line summary. -/
def createChainReport (name : String) (checks : List CheckReport) : ChainReport :=
  let passed := (checks.filter (fun c => c.result.status == .pass)).length
  let failed := (checks.filter (fun c => c.result.status == .fail)).length
  let warned := (checks.filter (fun c => c.result.status == .warn)).length
  let skipped := (checks.filter (fun c => c.result.status == .skip)).length
  let duration := checks.foldl (fun sum c => sum + c.result.duration.getD 0) 0
  let summary :=
    if failed > 0 then toString failed ++ " check(s) failed"
    else if warned > 0 then toString warned ++ " check(s) warned"
    else "all checks passed"
  { name := name, total := checks.length, passed := passed, failed := failed,
    warned := warned, skipped := skipped, duration := duration,
    checks := checks, summary := summary }

/-! ## Secrets file loading (`src/lib/secrets.ts`, `SecretsManager.load`)

The file content is processed at the character level (`List Char` is the
data of a JavaScript string).  `process.env` is embedded as an insertion
ordered association list `EnvMap`; assignment `process.env[k] = v`
replaces the value in place when the key exists and appends otherwise,
exactly like a JavaScript object. -/

/-- The whitespace class trimmed by JavaScript `String.prototype.trim`
(the ASCII part; the secrets file is ASCII). -/
def isJsWS (c : Char) : Bool :=
  c = ' ' || c = '\t' || c = '\n' || c = '\r' || c = '\x0b' || c = '\x0c'

/-- `String.prototype.trim` on character lists: drop whitespace from
both ends. -/
def trimChars (l : List Char) : List Char :=
  ((l.dropWhile isJsWS).reverse.dropWhile isJsWS).reverse

/-- JavaScript `String.prototype.split(sep)` for a one-character
separator: always returns at least one (possibly empty) piece. -/
def splitAll (sep : Char) : List Char → List (List Char)
  | [] => [[]]
  | c :: cs =>
    match splitAll sep cs with
    | [] => [[]]
    | h :: t => if c = sep then [] :: h :: t else (c :: h) :: t

/-- JavaScript `Array.prototype.join(sep)` for a one-character
separator. -/
def joinSep (sep : Char) : List (List Char) → List Char
  | [] => []
  | [x] => x
  | x :: y :: t => x ++ sep :: joinSep sep (y :: t)

/-- Split at the FIRST occurrence of `sep`, if any.  This is the
specification-side notion ("split on the first `=`"), to be compared
with the source's split-everywhere-and-rejoin. -/
def splitFirst (sep : Char) : List Char → Option (List Char × List Char)
  | [] => none
  | c :: cs =>
    if c = sep then some ([], cs)
    else (splitFirst sep cs).map (fun p => (c :: p.1, p.2))

/-- Strip one pair of surrounding double quotes
(`value.startsWith('"') && value.endsWith('"') ? value.slice(1, -1) : value`). -/
def stripQuotes (v : List Char) : List Char :=
  if v.head? = some '"' ∧ v.getLast? = some '"' then (v.drop 1).dropLast else v

/-- The process environment: an insertion-ordered association list of
key/value character lists. -/
abbrev EnvMap : Type := List (List Char × List Char)

/-- JavaScript object assignment `env[k] = v`: replace in place if the
key exists, append otherwise. -/
def setEnv (k v : List Char) : EnvMap → EnvMap
  | [] => [(k, v)]
  | (k', v') :: rest => if k' = k then (k, v) :: rest else (k', v') :: setEnv k v rest

/-- Lookup in the environment (first match). -/
def lookupEnv (k : List Char) : EnvMap → Option (List Char)
  | [] => none
  | (k', v) :: rest => if k' = k then some v else lookupEnv k rest

/-- The body of the `load()` loop for one (non-blank) line:
skip raw-`#`-prefixed comment lines; `const [key, ...rest] = line.split("=")`;
when `key` is truthy and `rest` non-empty, assign
`process.env[key.trim()] = cleanValue` where `cleanValue` is the
quote-stripped `rest.join("=").trim()`. -/
def processLine (env : EnvMap) (line : List Char) : EnvMap :=
  if line.head? = some '#' then env
  else
    match splitAll '=' line with
    | [] => env
    | key :: rest =>
      if key ≠ [] ∧ rest ≠ [] then
        setEnv (trimChars key) (stripQuotes (trimChars (joinSep '=' rest))) env
      else env

/-- The parsing phase of `load()`:
`content.split("\n").filter((line) => line.trim())`, then the assignment
loop over the remaining lines. -/
def loadContent (content : String) (env : EnvMap) : EnvMap :=
  ((splitAll '\n' content.data).filter (fun l => !(trimChars l).isEmpty)).foldl
    processLine env

/-- `SecretsManagerOptions` / the fields of `SecretsManager`. -/
structure SecretsManager where
  template : String
  env : String
  verbose : Bool := false

/-- `SecretsManager.load`, with the file system as an explicit lookup
(`fs path = some content` iff the file exists): when the ephemeral file
is absent, throw `"<env> not found. Did you call generate()?"` before
touching the environment; otherwise parse and assign.  Returns the
thrown message (if any) together with the resulting process
environment. -/
def load (m : SecretsManager) (fs : String → Option String) (env : EnvMap) :
    Option String × EnvMap :=
  match fs m.env with
  | none => (some (m.env ++ " not found. Did you call generate()?"), env)
  | some content => (none, loadContent content env)

/-! ## Execution wrapper (`src/lib/exec.ts`) -/

/-- The outcome of the underlying `execa` invocation: captured stdout,
stderr, and the exit code (`execa` itself throws exactly when the exit
code is non-zero, which `exec` catches). -/
structure ExecOutcome where
  stdout : String
  stderr : String
  exitCode : Nat

/-- `ExecOptions`: `throwOnError` defaults to `true` (the other execa
pass-through options do not affect the embedded behavior). -/
structure ExecOptions where
  throwOnError : Bool := true

/-- `ExecResult` from `exec.ts`. -/
structure ExecResult where
  stdout : String
  stderr : String
  code : Nat
  failed : Bool
deriving DecidableEq, Repr

/-- `exec`: on exit code `0` return a success result; on non-zero exit
either throw `Command failed: <cmd> <args>\n<stderr>` (when
`throwOnError`, the default) or return the result with `failed: true`. -/
def exec (command : String) (args : List String) (options : ExecOptions)
    (outcome : ExecOutcome) : Except String ExecResult :=
  if outcome.exitCode = 0 then
    .ok { stdout := outcome.stdout, stderr := outcome.stderr, code := 0, failed := false }
  else if options.throwOnError then
    .error ("Command failed: " ++ command ++ " " ++ String.intercalate " " args
      ++ "\n" ++ outcome.stderr)
  else
    .ok { stdout := outcome.stdout, stderr := outcome.stderr,
          code := outcome.exitCode, failed := true }

/-- JavaScript `String.prototype.trim` on strings, via `trimChars`. -/
def jsTrim (s : String) : String :=
  String.mk (trimChars s.data)

/-- `execOutput`: `(await exec(command, args, options)).stdout.trim()`,
with the caller's options passed through unchanged. -/
def execOutput (command : String) (args : List String) (options : ExecOptions)
    (outcome : ExecOutcome) : Except String String :=
  (exec command args options outcome).map (fun r => jsTrim r.stdout)

/-! ## Active-vault resolution (`src/lib/vaults-config.ts`) -/

/-- A vault entry of `vaults.config.json`. -/
structure VaultEntry where
  id : String
  name : String
  description : String
deriving DecidableEq, Repr

/-- `VaultsConfig`: the vault mapping plus the `active` vault id. -/
structure VaultsConfig where
  vaults : List (String × VaultEntry) := []
  active : String
deriving DecidableEq, Repr

/-- JavaScript truthiness of an optional environment variable: present
and non-empty. -/
def truthyEnv (v : Option String) : Bool :=
  match v with
  | some s => !s.isEmpty
  | none => false

/-- `getActiveVault` from `src/lib/vaults-config.ts`: return
`process.env.OP_VAULT` when truthy, otherwise the config's `active`
field.  (No override flag is consulted and there is no failure
branch.) -/
def getActiveVault (opVault : Option String) (config : VaultsConfig) : String :=
  match opVault with
  | some v => if v.isEmpty then config.active else v
  | none => config.active

/-- Modelled from the spec (the resolution order the claim asserts, for
comparison with `getActiveVault`): explicit environment override only
when the override flag is also set, then the configured `active` field,
then the plain environment variable, else failure. -/
def claimedVaultResolution (opVault opVaultOverride : Option String)
    (config : VaultsConfig) : Except String String :=
  if truthyEnv opVault ∧ opVaultOverride = some "1" then
    .ok (opVault.getD "")
  else if !config.active.isEmpty then
    .ok config.active
  else if truthyEnv opVault then
    .ok (opVault.getD "")
  else
    .error "No active vault configured (set vaults.config.json or OP_VAULT)"

/-- The variant of `getActiveVault` present elsewhere in the repository
(treating `OP_VAULT_OVERRIDE === "1"` as the override flag): override
first, then `config.active`, then plain `OP_VAULT`, else throw. -/
def getActiveVaultVariant (opVault opVaultOverride : Option String)
    (config : VaultsConfig) : Except String String :=
  if truthyEnv opVault && (opVaultOverride == some "1") then
    .ok (opVault.getD "")
  else if !config.active.isEmpty then
    .ok config.active
  else if truthyEnv opVault then
    .ok (opVault.getD "")
  else
    .error "No active vault configured (set vaults.config.json or OP_VAULT)"

/-! ## Theorems -/

/-- Auxiliary: the four status filters partition a report list by
length. -/
lemma length_filter_status_partition (checks : List CheckReport) :
    (checks.filter (fun c => c.result.status == .pass)).length +
      (checks.filter (fun c => c.result.status == .fail)).length +
      (checks.filter (fun c => c.result.status == .warn)).length +
      (checks.filter (fun c => c.result.status == .skip)).length = checks.length := by
  induction checks with
  | nil => rfl
  | cons c cs ih =>
    cases h : c.result.status <;>
      simp [List.filter_cons, h, beq_iff_eq] <;> omega

/-- **C5.** For every `ChainReport` produced by `createChainReport`:
`passed + failed + warned + skipped = total = checks.length`, i.e. the
four per-status counts are a partition of the `CheckReport` list by the
`status` field. -/
theorem createChainReport_partition (name : String) (checks : List CheckReport) :
    (createChainReport name checks).passed + (createChainReport name checks).failed +
        (createChainReport name checks).warned + (createChainReport name checks).skipped =
      (createChainReport name checks).total ∧
    (createChainReport name checks).total = (createChainReport name checks).checks.length := by
  refine ⟨?_, ?_⟩
  · simpa [createChainReport] using length_filter_status_partition checks
  · simp [createChainReport]

/-- **C9, counterexample.** With `OP_VAULT` set (and no override flag
set), `getActiveVault` from `src/lib/vaults-config.ts` returns the
environment variable, while the claimed resolution order returns the
configured `active` field: the claim fails on the cited code. -/
theorem getActiveVault_order_counterexample :
    getActiveVault (some "env-vault") { active := "config-vault" } = "env-vault" ∧
    claimedVaultResolution (some "env-vault") none { active := "config-vault" } =
      .ok "config-vault" ∧
    "env-vault" ≠ "config-vault" := by
  refine ⟨rfl, rfl, by decide⟩

/-- **C9, amended.** `getActiveVault` of `src/lib/vaults-config.ts`
resolves the active vault as: the plain `OP_VAULT` environment variable
when set and non-empty, otherwise the configured `active` field; no
override flag is consulted and there is no failure branch. -/
theorem getActiveVault_env_then_config (opVault : Option String) (config : VaultsConfig) :
    (truthyEnv opVault = true → getActiveVault opVault config = opVault.getD "") ∧
    (truthyEnv opVault = false → getActiveVault opVault config = config.active) := by
  cases opVault with
  | none => simp [truthyEnv, getActiveVault]
  | some v =>
    by_cases h : v.isEmpty <;> simp [truthyEnv, getActiveVault, h, Option.getD]

/-- Witness for **C9 (amended)** at a concrete input. -/
theorem getActiveVault_env_then_config_witness :
    truthyEnv (some "env-vault") = true ∧
    getActiveVault (some "env-vault") { active := "config-vault" } = "env-vault" :=
  ⟨rfl, (getActiveVault_env_then_config (some "env-vault") { active := "config-vault" }).1 rfl⟩

/-- Supplementary: the variant `getActiveVault` found elsewhere in the
repository does implement the override-then-config-then-environment
order that the specification describes. -/
theorem getActiveVaultVariant_matches_claimed_order (opVault opVaultOverride : Option String)
    (config : VaultsConfig) :
    getActiveVaultVariant opVault opVaultOverride config =
      claimedVaultResolution opVault opVaultOverride config := by
  unfold getActiveVaultVariant claimedVaultResolution
  by_cases ht : truthyEnv opVault = true <;> by_cases ho : opVaultOverride = some "1" <;>
    simp [ht, ho]

/-- **C8, counterexample.** With `throwOnError: false` in the options,
a failing command (non-zero exit) does not make `execOutput` throw: it
returns the trimmed stdout of the failed command, refuting "always
throws on command failure". -/
theorem execOutput_no_throw_counterexample :
    execOutput "false" [] { throwOnError := false }
        { stdout := " out ", stderr := "err", exitCode := 1 } = .ok "out" := by
  rfl

/-- **C8, amended.** `execOutput` returns the command's stdout with
surrounding whitespace trimmed, and throws on command failure (non-zero
exit) when `throwOnError` is `true` — which is the default; with
`throwOnError: false` it instead returns the (trimmed) stdout of the
failed command. -/
theorem execOutput_spec (command : String) (args : List String)
    (options : ExecOptions) (outcome : ExecOutcome) :
    (outcome.exitCode ≠ 0 → options.throwOnError = true →
      execOutput command args options outcome =
        .error ("Command failed: " ++ command ++ " " ++ String.intercalate " " args
          ++ "\n" ++ outcome.stderr)) ∧
    (∀ s, execOutput command args options outcome = .ok s → s = jsTrim outcome.stdout) ∧
    ExecOptions.throwOnError {} = true := by
  refine ⟨?_, ?_, rfl⟩
  · intro hcode hthrow
    simp [execOutput, exec, hcode, hthrow, Except.map]
  · intro s hs
    unfold execOutput exec at hs
    by_cases hcode : outcome.exitCode = 0 <;> simp [hcode, Except.map] at hs
    · exact hs.symm
    · by_cases hthrow : options.throwOnError = true <;> simp [hthrow, Except.map] at hs
      exact hs.symm

/-- Witness for **C8 (amended)** at a concrete input: exit code 1 with
the default options throws. -/
theorem execOutput_spec_witness :
    ((1 : Nat) ≠ 0) ∧ (ExecOptions.throwOnError {} = true) ∧
    execOutput "false" ["arg"] {} { stdout := "o", stderr := "err", exitCode := 1 } =
      .error ("Command failed: " ++ "false" ++ " " ++ String.intercalate " " ["arg"]
        ++ "\n" ++ "err") :=
  ⟨by decide, rfl,
    (execOutput_spec "false" ["arg"] {} { stdout := "o", stderr := "err", exitCode := 1 }).1
      (by decide) rfl⟩

/-- **C6.** When the ephemeral secrets file does not exist, `load()`
fails with the `"<file> not found. Did you call generate()?"` error and
performs no environment mutation: the resulting environment is exactly
the one before the call, key by key. -/
theorem load_missing_file (m : SecretsManager) (fs : String → Option String) (env : EnvMap)
    (h : fs m.env = none) :
    (load m fs env).1 = some (m.env ++ " not found. Did you call generate()?") ∧
    (load m fs env).2 = env ∧
    ∀ k, lookupEnv k (load m fs env).2 = lookupEnv k env := by
  simp [load, h]

/-- Witness for **C6** at a concrete input. -/
theorem load_missing_file_witness :
    ((fun _ : String => (none : Option String))
        (SecretsManager.env { template := "secrets.template", env := "secrets.env" }) = none) ∧
    (load { template := "secrets.template", env := "secrets.env" } (fun _ => none)
        [("K".data, "V".data)]).1 =
      some ("secrets.env" ++ " not found. Did you call generate()?") ∧
    (load { template := "secrets.template", env := "secrets.env" } (fun _ => none)
        [("K".data, "V".data)]).2 = [("K".data, "V".data)] :=
  ⟨rfl,
    (load_missing_file { template := "secrets.template", env := "secrets.env" }
      (fun _ => none) [("K".data, "V".data)] rfl).1,
    (load_missing_file { template := "secrets.template", env := "secrets.env" }
      (fun _ => none) [("K".data, "V".data)] rfl).2.1⟩

/-- Specification-side description of one `load()` loop step, amended
to match the source: blank lines and lines starting with `#` are
skipped; each remaining line is split on the FIRST `=`; the key and the
value are then BOTH whitespace-trimmed (`key.trim()`,
`rest.join("=").trim()` in the source — an operation absent from the
claim's words); a trimmed value wrapped in double quotes has the quotes
stripped; the resulting key/value pair is assigned into the
environment. -/
def processLineSpec (env : EnvMap) (line : List Char) : EnvMap :=
  if trimChars line = [] then env
  else if line.head? = some '#' then env
  else
    match splitFirst '=' line with
    | none => env
    | some (key, value) =>
      if key = [] then env
      else setEnv (trimChars key) (stripQuotes (trimChars value)) env

/-- `splitAll` never returns an empty list of pieces. -/
lemma splitAll_ne_nil (sep : Char) (l : List Char) : splitAll sep l ≠ [] := by
  cases l with
  | nil => simp [splitAll]
  | cons c cs =>
    rw [splitAll]
    cases h : splitAll sep cs with
    | nil => simp
    | cons hd tl => by_cases hc : c = sep <;> simp [hc]

/-- Joining the pieces of `splitAll` with the separator restores the
original list (`split`/`join` round-trip). -/
lemma joinSep_splitAll (sep : Char) (l : List Char) :
    joinSep sep (splitAll sep l) = l := by
  induction l with
  | nil => rfl
  | cons c cs ih =>
    rw [splitAll]
    cases h : splitAll sep cs with
    | nil => exact absurd h (splitAll_ne_nil sep cs)
    | cons hd tl =>
      rw [h] at ih
      by_cases hc : c = sep
      · subst hc
        simpa [joinSep] using ih
      · simp only [hc, if_false]
        cases tl with
        | nil => simpa [joinSep] using ih
        | cons t ts =>
          rw [joinSep] at ih ⊢
          simpa using ih

/-- When the separator does not occur, `splitAll` returns the whole
line as its single piece. -/
lemma splitAll_of_splitFirst_none (sep : Char) (l : List Char)
    (h : splitFirst sep l = none) : splitAll sep l = [l] := by
  induction l with
  | nil => rfl
  | cons c cs ih =>
    rw [splitFirst] at h
    by_cases hc : c = sep
    · simp [hc] at h
    · simp only [hc, if_false, Option.map_eq_none'] at h
      rw [splitAll, ih h]
      simp [hc]

/-- When the separator first occurs after the prefix `k`, the pieces of
`splitAll` are `k` followed by the pieces of the remainder. -/
lemma splitAll_of_splitFirst_some (sep : Char) (l : List Char) (k v : List Char)
    (h : splitFirst sep l = some (k, v)) :
    splitAll sep l = k :: splitAll sep v := by
  induction l generalizing k with
  | nil => simp [splitFirst] at h
  | cons c cs ih =>
    rw [splitFirst] at h
    by_cases hc : c = sep
    · simp only [hc, if_true, Option.some.injEq, Prod.mk.injEq] at h
      obtain ⟨rfl, rfl⟩ := h
      rw [splitAll]
      cases h' : splitAll sep cs with
      | nil => exact absurd h' (splitAll_ne_nil sep cs)
      | cons hd tl => simp [hc, h']
    · simp only [hc, if_false, Option.map_eq_some'] at h
      obtain ⟨⟨k', v'⟩, h1, h2⟩ := h
      simp only [Prod.mk.injEq] at h2
      obtain ⟨rfl, rfl⟩ := h2
      rw [splitAll, ih k' h1]
      simp [hc]

/-- For a non-blank line, the source's loop body (`split("=")` into
`[key, ...rest]`, keep when `key` truthy and `rest` non-empty, assign
`rest.join("=")`) agrees with the specification-side first-`=`-split
description. -/
lemma processLine_eq_spec (env : EnvMap) (line : List Char)
    (hnb : trimChars line ≠ []) :
    processLine env line = processLineSpec env line := by
  rw [processLine, processLineSpec, if_neg hnb]
  by_cases hh : line.head? = some '#'
  · simp [hh]
  · simp only [hh, if_false]
    cases hsf : splitFirst '=' line with
    | none =>
      rw [splitAll_of_splitFirst_none '=' line hsf]
      simp
    | some kv =>
      obtain ⟨k, v⟩ := kv
      rw [splitAll_of_splitFirst_some '=' line k v hsf]
      have hrest : splitAll '=' v ≠ [] := splitAll_ne_nil '=' v
      by_cases hk : k = []
      · simp [hk]
      · simp [hk, hrest, joinSep_splitAll]

/-- Folding the source loop over the blank-filtered lines equals
folding the specification-side step (which skips blank lines itself)
over all lines. -/
lemma foldl_processLine_filter (lines : List (List Char)) (env : EnvMap) :
    (lines.filter (fun l => !(trimChars l).isEmpty)).foldl processLine env =
      lines.foldl processLineSpec env := by
  induction lines generalizing env with
  | nil => rfl
  | cons l ls ih =>
    by_cases hb : trimChars l = []
    · have hspec : processLineSpec env l = env := by rw [processLineSpec, if_pos hb]
      simp [List.filter_cons, hb, hspec, ih]
    · have heq := processLine_eq_spec env l hb
      simp [List.filter_cons, hb, heq, ih]

/-- Assignment into the environment overwrites any pre-existing value
for that key. -/
lemma lookupEnv_setEnv (k v : List Char) (m : EnvMap) :
    lookupEnv k (setEnv k v m) = some v := by
  induction m with
  | nil => simp [setEnv, lookupEnv]
  | cons p rest ih =>
    obtain ⟨k', v'⟩ := p
    by_cases h : k' = k <;> simp [setEnv, lookupEnv, h, ih]

/-- **C7, amended.** The parsing phase of `load()` processes the file
content line by line: blank lines and lines starting with `#` are
skipped, each remaining line is split on the first `=`, the key and the
value are both whitespace-trimmed (a step the original claim omits —
see the counterexample), a trimmed double-quote-wrapped value has the
quotes stripped, and each key/value pair is assigned into the process
environment — overwriting any pre-existing value for the key. -/
theorem load_line_parsing (content : String) (env : EnvMap) :
    loadContent content env =
      (splitAll '\n' content.data).foldl processLineSpec env ∧
    (∀ k v m, lookupEnv k (setEnv k v m) = some v) := by
  refine ⟨?_, fun k v m => lookupEnv_setEnv k v m⟩
  rw [loadContent]
  exact foldl_processLine_filter _ env

/-- Modelled from the claim's literal words, for comparison with the
source loop: split each non-blank, non-`#` line on the first `=`, strip
surrounding double quotes from the value, and write the resulting
key/value pair as is — with NO whitespace-trimming of key or value. -/
def processLineLiteral (env : EnvMap) (line : List Char) : EnvMap :=
  if trimChars line = [] then env
  else if line.head? = some '#' then env
  else
    match splitFirst '=' line with
    | none => env
    | some (key, value) => setEnv key (stripQuotes value) env

/-- **C7, counterexample.** On the line `K = v` (spaces around the
`=`), the source's loop trims the key and the value and writes the pair
`K`/`v`, while the claim's literal description — split on the first
`=`, strip wrapping quotes, write the pair — would write the pair
`K `/` v` (whitespace kept): the claim as stated fails on the code. -/
theorem load_line_parsing_counterexample :
    loadContent "K = v" [] = [("K".data, "v".data)] ∧
    processLineLiteral [] "K = v".data = [("K ".data, " v".data)] ∧
    [(("K ").data, (" v").data)] ≠ [("K".data, "v".data)] :=
  ⟨rfl, rfl, by decide⟩

/-- **C10.** In `load()`, comment detection applies to the raw line
while blank detection applies to the trimmed line: the non-blank line
`"  #FOO=bar"`, whose first non-whitespace character is `#` but which
begins with whitespace, is not skipped as a comment — it is parsed as
an assignment, and the key `#FOO` (leading whitespace trimmed away) is
written into the process environment with value `bar`. -/
theorem load_whitespace_comment_parsed :
    (∀ env : EnvMap, loadContent "  #FOO=bar" env = setEnv "#FOO".data "bar".data env) ∧
    lookupEnv "#FOO".data (loadContent "  #FOO=bar" []) = some "bar".data := by
  exact ⟨fun env => rfl, rfl⟩

/-- With neither `from` nor `to` requested, the range filter leaves the
list unchanged (on a non-empty list the slice covers everything; on an
empty list `toIdx = -1` disables the slice). -/
lemma rangeFilter_none_none {Ctx : Type} (L : List (Check Ctx)) :
    rangeFilter L none none = L := by
  cases L with
  | nil => rfl
  | cons x xs =>
    rw [rangeFilter]
    have hfrom : rangeFrom (x :: xs) none = 0 := rfl
    have hto : rangeTo (x :: xs) none = (xs.length : Int) := by
      rw [rangeTo]
      simp
    rw [hfrom, hto]
    have hcond : (0 : Int) ≤ 0 ∧ (0 : Int) ≤ (xs.length : Int) ∧ (0 : Int) ≤ (xs.length : Int) := by
      refine ⟨le_refl 0, ?_, ?_⟩ <;> exact_mod_cast Nat.zero_le xs.length
    rw [if_pos hcond]
    rw [jsSlice]
    simp

/-- A list has an element satisfying `p` iff its `p`-filtrate is
non-empty. -/
lemma any_eq_not_isEmpty_filter {α : Type} (xs : List α) (p : α → Bool) :
    xs.any p = !(xs.filter p).isEmpty := by
  induction xs with
  | nil => rfl
  | cons x xs ih => by_cases hx : p x <;> simp [List.filter_cons, hx, ih]

/-- The source's keep-predicate (`some` tag of the check is contained
in the requested tags) coincides with the spec's "tag set intersects T
non-emptily". -/
lemma any_contains_eq_inter_nonempty (xs T : List String) :
    xs.any (fun tag => T.contains tag) = !(xs.inter T).isEmpty := by
  have h : xs.inter T = xs.filter (fun x => T.contains x) := by
    simp [List.inter]
  rw [h, any_eq_not_isEmpty_filter]

/-- **C2.** The tag filter of `filterChecks`: with a non-empty
requested tag set `T` (and no range ids) it returns exactly the sublist
of checks whose tag set has a non-empty intersection with `T`, in
original order; with an empty or absent tag set it returns the checks
unchanged. -/
theorem filterChecks_tags (Ctx : Type) (checks : List (Check Ctx)) (T : List String) :
    (T ≠ [] →
      filterChecks checks { onlyTags := some T } =
        checks.filter (fun c => !((c.tags.getD []).inter T).isEmpty)) ∧
    filterChecks checks { onlyTags := some [] } = checks ∧
    filterChecks checks { onlyTags := none } = checks := by
  refine ⟨?_, ?_, ?_⟩
  · intro hT
    have hlen : 0 < T.length := List.length_pos.mpr hT
    rw [filterChecks]
    show rangeFilter (tagFilter checks (some T)) none none = _
    rw [rangeFilter_none_none, tagFilter]
    simp only [hlen, if_pos, gt_iff_lt]
    apply List.filter_congr
    intro c _
    exact any_contains_eq_inter_nonempty _ T
  · rw [filterChecks]
    show rangeFilter (tagFilter checks (some [])) none none = _
    rw [rangeFilter_none_none, tagFilter]
    simp
  · rw [filterChecks]
    show rangeFilter (tagFilter checks none) none none = _
    rw [rangeFilter_none_none, tagFilter]

/-- A passing result, for sample checks. -/
def passResult : CheckResult := { status := .pass }

/-- Sample check `a`, tagged `smoke` (spec §8 scenario). -/
def checkA : Check RunContext :=
  { id := "a", title := "A", tags := some ["smoke"], run := fun _ => .ok passResult }

/-- Sample check `b`, tagged `preflight`. -/
def checkB : Check RunContext :=
  { id := "b", title := "B", tags := some ["preflight"], run := fun _ => .ok passResult }

/-- Sample check `c`, tagged `smoke, preflight`. -/
def checkC : Check RunContext :=
  { id := "c", title := "C", tags := some ["smoke", "preflight"],
    run := fun _ => .ok passResult }

/-- The sample check list `[a, b, c]`. -/
def sampleChecks : List (Check RunContext) := [checkA, checkB, checkC]

/-- Witness for **C2** at a concrete input: filtering `[a, b, c]` by
tag `smoke`. -/
theorem filterChecks_tags_witness :
    (["smoke"] ≠ ([] : List String)) ∧
    filterChecks sampleChecks { onlyTags := some ["smoke"] } =
      sampleChecks.filter (fun c => !((c.tags.getD []).inter ["smoke"]).isEmpty) :=
  ⟨by decide, (filterChecks_tags RunContext sampleChecks ["smoke"]).1 (by decide)⟩

/-- Position of the first element satisfying `p`, if any: the
specification-side notion of "the position where an id occurs",
compared below against the source's `findIndex` (which encodes absence
as `-1`). -/
def firstIdx? {α : Type} (p : α → Bool) : List α → Option Nat
  | [] => none
  | x :: xs => if p x then some 0 else (firstIdx? p xs).map (· + 1)

/-- `findIndex` returns `-1` exactly when no element matches. -/
lemma jsFindIndex_of_firstIdx?_none {α : Type} (p : α → Bool) (l : List α)
    (h : firstIdx? p l = none) : jsFindIndex p l = -1 := by
  induction l with
  | nil => rfl
  | cons x xs ih =>
    rw [firstIdx?] at h
    cases hx : p x with
    | true => rw [hx] at h; simp at h
    | false =>
      rw [hx] at h
      simp only [Bool.false_eq_true, if_false, Option.map_eq_none'] at h
      rw [jsFindIndex, hx]
      simp only [Bool.false_eq_true, if_false]
      rw [ih h]
      rfl

/-- `findIndex` agrees with the first-match position when one exists. -/
lemma jsFindIndex_of_firstIdx?_some {α : Type} (p : α → Bool) (l : List α) (i : Nat)
    (h : firstIdx? p l = some i) : jsFindIndex p l = (i : Int) := by
  induction l generalizing i with
  | nil => simp [firstIdx?] at h
  | cons x xs ih =>
    rw [firstIdx?] at h
    cases hx : p x with
    | true =>
      rw [hx] at h
      simp only [if_true, Option.some.injEq] at h
      subst h
      simp [jsFindIndex, hx]
    | false =>
      rw [hx] at h
      simp only [Bool.false_eq_true, if_false, Option.map_eq_some'] at h
      obtain ⟨j, hj, rfl⟩ := h
      rw [jsFindIndex, hx]
      simp only [Bool.false_eq_true, if_false]
      rw [ih j hj]
      rfl

/-- A first-match position is a valid index. -/
lemma firstIdx?_lt_length {α : Type} (p : α → Bool) (l : List α) (i : Nat)
    (h : firstIdx? p l = some i) : i < l.length := by
  induction l generalizing i with
  | nil => simp [firstIdx?] at h
  | cons x xs ih =>
    rw [firstIdx?] at h
    cases hx : p x with
    | true =>
      rw [hx] at h
      simp only [if_true, Option.some.injEq] at h
      subst h
      simp
    | false =>
      rw [hx] at h
      simp only [Bool.false_eq_true, if_false, Option.map_eq_some'] at h
      obtain ⟨j, hj, rfl⟩ := h
      have := ih j hj
      simp only [List.length_cons]
      omega

/-- **C3, amended.** The range filter of `filterChecks` operates on the
tag-filtered list: for NON-EMPTY ids (an empty-string id is falsy in
the source and treated as an absent bound), when the `from` id occurs
at position `i` and the `to` id at position `j` with `i ≤ j`, the
result is the contiguous inclusive slice between them in original
order; a missing `from` defaults to the start and a missing `to` to the
end; when either id is not found in the tag-filtered list, or `from`
resolves after `to`, the range filter is a no-op and the full
tag-filtered list is returned. -/
theorem filterChecks_range (Ctx : Type) (checks : List (Check Ctx))
    (T : Option (List String)) (f t : String) (i j : Nat) (fOpt tOpt : Option String) :
    (f ≠ "" → t ≠ "" →
      firstIdx? (fun c => c.id == f) (tagFilter checks T) = some i →
      firstIdx? (fun c => c.id == t) (tagFilter checks T) = some j →
      i ≤ j →
      filterChecks checks { onlyTags := T, fromId := some f, toId := some t } =
        ((tagFilter checks T).drop i).take (j + 1 - i)) ∧
    (f ≠ "" →
      firstIdx? (fun c => c.id == f) (tagFilter checks T) = some i →
      filterChecks checks { onlyTags := T, fromId := some f, toId := none } =
        (tagFilter checks T).drop i) ∧
    (t ≠ "" →
      firstIdx? (fun c => c.id == t) (tagFilter checks T) = some j →
      filterChecks checks { onlyTags := T, fromId := none, toId := some t } =
        (tagFilter checks T).take (j + 1)) ∧
    (f ≠ "" →
      firstIdx? (fun c => c.id == f) (tagFilter checks T) = none →
      filterChecks checks { onlyTags := T, fromId := some f, toId := tOpt } =
        tagFilter checks T) ∧
    (t ≠ "" →
      firstIdx? (fun c => c.id == t) (tagFilter checks T) = none →
      filterChecks checks { onlyTags := T, fromId := fOpt, toId := some t } =
        tagFilter checks T) ∧
    (f ≠ "" → t ≠ "" →
      firstIdx? (fun c => c.id == f) (tagFilter checks T) = some i →
      firstIdx? (fun c => c.id == t) (tagFilter checks T) = some j →
      j < i →
      filterChecks checks { onlyTags := T, fromId := some f, toId := some t } =
        tagFilter checks T) := by
  refine ⟨?_, ?_, ?_, ?_, ?_, ?_⟩
  · intro hf0 ht0 hf ht hij
    rw [filterChecks]
    have hF : rangeFrom (tagFilter checks T) (some f) = (i : Int) := by
      rw [rangeFrom, if_neg (by simpa [String.isEmpty_iff] using hf0)]
      exact jsFindIndex_of_firstIdx?_some _ _ i hf
    have hT : rangeTo (tagFilter checks T) (some t) = (j : Int) := by
      rw [rangeTo, if_neg (by simpa [String.isEmpty_iff] using ht0)]
      exact jsFindIndex_of_firstIdx?_some _ _ j ht
    rw [rangeFilter, hF, hT, if_pos ⟨by omega, by omega, by omega⟩, jsSlice]
    have h1 : ((i : Int)).toNat = i := by omega
    have h2 : ((j : Int)).toNat = j := by omega
    rw [h1, h2]
  · intro hf0 hf
    rw [filterChecks]
    have hF : rangeFrom (tagFilter checks T) (some f) = (i : Int) := by
      rw [rangeFrom, if_neg (by simpa [String.isEmpty_iff] using hf0)]
      exact jsFindIndex_of_firstIdx?_some _ _ i hf
    have hlen : i < (tagFilter checks T).length := firstIdx?_lt_length _ _ i hf
    have hT : rangeTo (tagFilter checks T) none = ((tagFilter checks T).length : Int) - 1 :=
      rfl
    rw [rangeFilter, hF, hT, if_pos ⟨by omega, by omega, by omega⟩, jsSlice]
    have h1 : ((i : Int)).toNat = i := by omega
    have h2 : (((tagFilter checks T).length : Int) - 1).toNat + 1 =
        (tagFilter checks T).length := by omega
    rw [h1, h2]
    apply List.take_of_length_le
    simp
  · intro ht0 ht
    rw [filterChecks]
    have hF : rangeFrom (tagFilter checks T) none = 0 := rfl
    have hT : rangeTo (tagFilter checks T) (some t) = (j : Int) := by
      rw [rangeTo, if_neg (by simpa [String.isEmpty_iff] using ht0)]
      exact jsFindIndex_of_firstIdx?_some _ _ j ht
    rw [rangeFilter, hF, hT, if_pos ⟨by omega, by omega, by omega⟩, jsSlice]
    have h2 : ((j : Int)).toNat = j := by omega
    rw [h2]
    simp [Int.toNat_zero]
  · intro hf0 hf
    rw [filterChecks]
    have hF : rangeFrom (tagFilter checks T) (some f) = -1 := by
      rw [rangeFrom, if_neg (by simpa [String.isEmpty_iff] using hf0)]
      exact jsFindIndex_of_firstIdx?_none _ _ hf
    rw [rangeFilter, hF]
    exact if_neg (fun hcond => by have := hcond.1; omega)
  · intro ht0 ht
    rw [filterChecks]
    have hT : rangeTo (tagFilter checks T) (some t) = -1 := by
      rw [rangeTo, if_neg (by simpa [String.isEmpty_iff] using ht0)]
      exact jsFindIndex_of_firstIdx?_none _ _ ht
    rw [rangeFilter, hT]
    exact if_neg (fun hcond => by have := hcond.2.1; omega)
  · intro hf0 ht0 hf ht hij
    rw [filterChecks]
    have hF : rangeFrom (tagFilter checks T) (some f) = (i : Int) := by
      rw [rangeFrom, if_neg (by simpa [String.isEmpty_iff] using hf0)]
      exact jsFindIndex_of_firstIdx?_some _ _ i hf
    have hT : rangeTo (tagFilter checks T) (some t) = (j : Int) := by
      rw [rangeTo, if_neg (by simpa [String.isEmpty_iff] using ht0)]
      exact jsFindIndex_of_firstIdx?_some _ _ j ht
    rw [rangeFilter, hF, hT]
    exact if_neg (fun hcond => by have := hcond.2.2; omega)

/-- A check with the empty string as id. -/
def checkEmptyId : Check RunContext :=
  { id := "", title := "Empty id", run := fun _ => .ok passResult }

/-- **C3, counterexample.** The claim as stated fails for an
empty-string `from` id: in `[a, emptyId]` the id `""` occurs at
position 1, so the claim predicts the slice from position 1 (one
check), but the source treats the falsy `from: ""` as absent and
returns both checks. -/
theorem filterChecks_range_counterexample :
    firstIdx? (fun c => c.id == "") (tagFilter [checkA, checkEmptyId] none) = some 1 ∧
    (filterChecks [checkA, checkEmptyId]
        { onlyTags := none, fromId := some "", toId := none }).length = 2 ∧
    ((tagFilter [checkA, checkEmptyId] none).drop 1).length = 1 :=
  ⟨rfl, rfl, rfl⟩

/-- Witness for **C3 (amended)** at a concrete input: range `a`..`c`
over the sample checks with no tag filter. -/
theorem filterChecks_range_witness :
    ("a" ≠ "") ∧ ("c" ≠ "") ∧
    (firstIdx? (fun c => c.id == "a") (tagFilter sampleChecks none) = some 0) ∧
    (firstIdx? (fun c => c.id == "c") (tagFilter sampleChecks none) = some 2) ∧
    (0 ≤ 2) ∧
    filterChecks sampleChecks { onlyTags := none, fromId := some "a", toId := some "c" } =
      ((tagFilter sampleChecks none).drop 0).take (2 + 1 - 0) :=
  ⟨by decide, by decide, rfl, rfl, by omega,
    (filterChecks_range RunContext sampleChecks none "a" "c" 0 2 none none).1
      (by decide) (by decide) rfl rfl (by omega)⟩

/-- A check that reports a `fail` result (the failing smoke check of
the orchestrator scenario). -/
def failingCheck : Check RunContext :=
  { id := "s1", title := "Smoke check", tags := some ["smoke"],
    run := fun _ => .ok { status := .fail, message := some "boom" } }

/-- The `smoke` chain of the scenario: one check that fails. -/
def smokeChain : ChainOptions := { name := "smoke", checks := [failingCheck] }

/-- The `preflight` chain of the scenario: one passing check. -/
def preflightChain : ChainOptions := { name := "preflight", checks := [checkB] }

/-- A default config for concrete run contexts. -/
def baseConfig : Config := {}

/-- A non-dry-run context. -/
def nonDryCtx : RunContext := { config := baseConfig, dryRun := false, verbose := false }

/-- A dry-run context. -/
def dryCtx : RunContext := { config := baseConfig, dryRun := true, verbose := false }

/-- In dry-run mode every chain executes: `runChains` maps `runChain`
over the whole list. -/
lemma runChains_dryRun (chains : List ChainOptions) (ctx : RunContext)
    (h : ctx.dryRun = true) :
    runChains chains ctx = chains.map (fun c => runChain c ctx) := by
  induction chains with
  | nil => rfl
  | cons c cs ih =>
    rw [runChains, h]
    simp [ih]

/-- Outside dry-run mode, the first chain whose reports contain a
`fail` is the last chain executed. -/
lemma runChains_stop (pre post : List ChainOptions) (failing : ChainOptions)
    (ctx : RunContext) (hdry : ctx.dryRun = false)
    (hpre : ∀ c ∈ pre, (runChain c ctx).any (fun r => r.result.status == .fail) = false)
    (hfail : (runChain failing ctx).any (fun r => r.result.status == .fail) = true) :
    runChains (pre ++ failing :: post) ctx =
      (pre ++ [failing]).map (fun c => runChain c ctx) := by
  induction pre with
  | nil =>
    simp only [List.nil_append, List.map_cons, List.map_nil]
    rw [runChains, hdry]
    simp [hfail]
  | cons c cs ih =>
    rw [List.cons_append, runChains]
    have hc := hpre c (List.mem_cons_self c cs)
    simp only [hc, hdry, Bool.false_and, Bool.not_false, Bool.and_true,
      Bool.false_eq_true, if_false]
    rw [ih (fun c' hc' => hpre c' (List.mem_cons_of_mem c hc'))]
    simp

/-- **C1.** The multi-chain orchestrator runs chains in declared order
against the shared context; in dry-run mode every chain executes; in
non-dry-run mode, once a chain's reports contain a `fail`, no later
chain executes and the returned array holds exactly the reports of the
chains run so far (the failing chain included).  In particular, for
`[smoke, preflight]` with one failing smoke check: non-dry-run returns
1 chain report list, dry-run returns 2. -/
theorem runChains_stop_on_failure (chains pre post : List ChainOptions)
    (failing : ChainOptions) (ctx : RunContext) :
    (ctx.dryRun = true →
      runChains chains ctx = chains.map (fun c => runChain c ctx)) ∧
    (ctx.dryRun = false →
      chains = pre ++ failing :: post →
      (∀ c ∈ pre, (runChain c ctx).any (fun r => r.result.status == .fail) = false) →
      (runChain failing ctx).any (fun r => r.result.status == .fail) = true →
      runChains chains ctx = (pre ++ [failing]).map (fun c => runChain c ctx)) ∧
    (runChains [smokeChain, preflightChain] nonDryCtx).length = 1 ∧
    (runChains [smokeChain, preflightChain] dryCtx).length = 2 := by
  refine ⟨fun h => runChains_dryRun chains ctx h, ?_, rfl, rfl⟩
  intro hdry hchains hpre hfail
  subst hchains
  exact runChains_stop pre post failing ctx hdry hpre hfail

/-- Witness for **C1** at the concrete scenario: `[smoke, preflight]`
with a failing smoke check, outside dry-run mode. -/
theorem runChains_stop_on_failure_witness :
    (nonDryCtx.dryRun = false) ∧
    ([smokeChain, preflightChain] =
      ([] : List ChainOptions) ++ smokeChain :: [preflightChain]) ∧
    (∀ c ∈ ([] : List ChainOptions),
      (runChain c nonDryCtx).any (fun r => r.result.status == .fail) = false) ∧
    ((runChain smokeChain nonDryCtx).any (fun r => r.result.status == .fail) = true) ∧
    runChains [smokeChain, preflightChain] nonDryCtx =
      (([] : List ChainOptions) ++ [smokeChain]).map (fun c => runChain c nonDryCtx) :=
  ⟨rfl, rfl, by simp, rfl,
    (runChains_stop_on_failure [smokeChain, preflightChain] [] [preflightChain]
      smokeChain nonDryCtx).2.1 rfl rfl (by simp) rfl⟩

/-- A check whose `run` throws an uncaught exception with message
`kaboom`. -/
def throwingCheck : Check RunContext :=
  { id := "t1", title := "Thrower", run := fun _ => .error "kaboom" }

/-- A chain of two checks where the first throws: the spec's exception
scenario. -/
def exceptionChain : ChainOptions :=
  { name := "exception", checks := [throwingCheck, checkB] }

/-- **C4.** When a check's `run(ctx)` throws with message `msg`, the
report recorded for it has status `fail`, message exactly
`"Exception"`, and details equal to `msg`; and every filtered check of
the chain still executes and appears in the returned report list at its
position (one report per filtered check — a per-check failure does not
abort the chain). -/
theorem runChain_exception (options : ChainOptions) (ctx : RunContext) (i : Nat)
    (check : Check RunContext) (msg : String) :
    ((filterChecks options.checks
        { onlyTags := options.onlyTags, fromId := options.fromId,
          toId := options.toId })[i]? = some check →
      check.run ctx = .error msg →
      (runChain options ctx)[i]? =
        some { id := check.id, title := check.title, tags := check.tags,
               result := { status := .fail, message := some "Exception",
                           details := some msg, duration := some 0 } }) ∧
    (runChain options ctx).length =
      (filterChecks options.checks
        { onlyTags := options.onlyTags, fromId := options.fromId,
          toId := options.toId }).length ∧
    (∀ (jdx : Nat) (c' : Check RunContext), (filterChecks options.checks
        { onlyTags := options.onlyTags, fromId := options.fromId,
          toId := options.toId })[jdx]? = some c' →
      ∃ rep, (runChain options ctx)[jdx]? = some rep ∧ rep.id = c'.id ∧
        rep.title = c'.title) := by
  refine ⟨?_, ?_, ?_⟩
  · intro hmem hrun
    rw [runChain, List.getElem?_map, hmem, Option.map_some']
    rw [runCheck, hrun]
  · rw [runChain, List.length_map]
  · intro jdx c' hmem
    refine ⟨runCheck ctx c', ?_, ?_, ?_⟩
    · rw [runChain, List.getElem?_map, hmem, Option.map_some']
    · cases hr : c'.run ctx <;> simp [runCheck, hr]
    · cases hr : c'.run ctx <;> simp [runCheck, hr]

/-- Witness for **C4** at the concrete scenario: a chain of two checks
whose first check throws `kaboom`. -/
theorem runChain_exception_witness :
    ((filterChecks exceptionChain.checks
        { onlyTags := exceptionChain.onlyTags, fromId := exceptionChain.fromId,
          toId := exceptionChain.toId })[0]? = some throwingCheck) ∧
    (throwingCheck.run nonDryCtx = .error "kaboom") ∧
    (runChain exceptionChain nonDryCtx)[0]? =
      some { id := throwingCheck.id, title := throwingCheck.title,
             tags := throwingCheck.tags,
             result := { status := .fail, message := some "Exception",
                         details := some "kaboom", duration := some 0 } } :=
  ⟨rfl, rfl,
    (runChain_exception exceptionChain nonDryCtx 0 throwingCheck "kaboom").1 rfl rfl⟩
